import Mathlib

/-!
Verification of the brainrot-reddit video pipeline core.

This file shallowly embeds the algorithmic parts of the repository:

* `video_utils.py` — `pick_non_repeating_videos` (the Non-Repeating Selector),
  embedded with the post-shuffle pool passed explicitly (the shuffle is the
  only source of randomness; theorems quantify over every permutation of the
  flattened catalog);
* `utils.py` — `get_audio_duration` (the Duration Probe), embedded over an
  environment describing the outcomes of the external collaborators, together
  with a trace of which probing strategies were invoked;
* `video_creator.py` — `_apply_random_speed` and
  `_apply_random_speed_cpu_fallback` (the Speed Transform), embedded over an
  environment describing each tier's outcome, together with the parameters of
  each attempted tier and the resulting artifacts, and
  `create_video_with_audio` (the Composition Engine), embedded as a
  resource-trace function recording which media resources are opened and
  closed on each exit path.
-/

namespace Frbv

/-! ## Selector: `video_utils.pick_non_repeating_videos`

The Python function scans a mutable pool for the first matching element and
`pop`s it.  `extractFirst p l` returns the first element of `l` satisfying
`p` together with the list with that element removed, mirroring the
`for i, (folder, video) in enumerate(all_videos) ... all_videos.pop(i)` idiom. -/

def extractFirst (p : String × String → Bool) :
    List (String × String) → Option ((String × String) × List (String × String))
  | [] => none
  | x :: xs =>
    if p x then some (x, xs)
    else (extractFirst p xs).map (fun r => (r.1, x :: r.2))

/-- `video not in used_videos and folder != last_folder`. -/
def freshDiff (used : List String) (last : Option String) :
    String × String → Bool :=
  fun fv => !(used.contains fv.2) && decide (some fv.1 ≠ last)

/-- `video not in used_videos` (the relaxed condition of the `else` clause). -/
def freshAny (used : List String) : String × String → Bool :=
  fun fv => !(used.contains fv.2)

/-- One iteration of the selection loop: first try an unused video from a
folder different from `last`; failing that (`for ... else`), any unused
video. -/
def pickStep (used : List String) (last : Option String)
    (pool : List (String × String)) :
    Option ((String × String) × List (String × String)) :=
  match extractFirst (freshDiff used last) pool with
  | some r => some r
  | none => extractFirst (freshAny used) pool

/-- The selection loop `for _ in range(count)`, instrumented to keep the
(folder, video) pair of each selected entry.  The Python code appends only
the video path; the folder component is ghost state used to express the
adjacency properties. -/
def pickLoop : Nat → List String → Option String → List (String × String) →
    List (String × String)
  | 0, _, _, _ => []
  | Nat.succ n, used, last, pool =>
    match pickStep used last pool with
    | some (fv, rest) => fv :: pickLoop n (fv.2 :: used) (some fv.1) rest
    | none => pickLoop n used last pool

/-- `all_videos = [(folder, video) for folder, videos in folder_to_videos.items() for video in videos]`. -/
def allVideosOf (ftv : List (String × List String)) : List (String × String) :=
  ftv.flatMap (fun c => c.2.map (fun v => (c.1, v)))

/-- `video_utils.pick_non_repeating_videos`.  `shuffled` is the pool after
`random.shuffle`; theorems quantify over all permutations of
`allVideosOf ftv`. -/
def pick_non_repeating_videos (ftv : List (String × List String)) (count : Nat)
    (shuffled : List (String × String)) : Except String (List String) :=
  if count > (allVideosOf ftv).length then
    Except.error ("Cannot select " ++ toString count ++
      " unique videos. Maximum is " ++ toString (allVideosOf ftv).length ++ ".")
  else
    Except.ok ((pickLoop count [] none shuffled).map Prod.snd)

/-- Number of adjacent pairs of plan entries drawn from the same folder
(category): the positions at which the adjacency constraint is relaxed. -/
def countAdjSame : List (String × String) → Nat
  | [] => 0
  | [_] => 0
  | a :: b :: rest => (if a.1 = b.1 then 1 else 0) + countAdjSame (b :: rest)

/-- `relaxedChain last plan` states that whenever a plan entry repeats the
category of its predecessor (`last` is the category preceding the whole
plan), every later entry also has that category: relaxation happens only in
an unavoidable single-category tail. -/
def relaxedChain : Option String → List (String × String) → Prop
  | _, [] => True
  | last, fv :: rest =>
    (some fv.1 = last → ∀ q ∈ rest, q.1 = fv.1) ∧ relaxedChain (some fv.1) rest

theorem extractFirst_some_perm {p : String × String → Bool}
    {l rest : List (String × String)} {x : String × String}
    (h : extractFirst p l = some (x, rest)) : List.Perm (x :: rest) l := by
  induction l generalizing x rest with
  | nil => simp [extractFirst] at h
  | cons a tl ih =>
    by_cases hp : p a
    · simp [extractFirst, hp] at h
      obtain ⟨h1, h2⟩ := h
      subst h1
      subst h2
      exact List.Perm.refl _
    · simp [extractFirst, hp, Option.map_eq_some'] at h
      obtain ⟨y, ys, zs, he, hx, hrest⟩ := h
      subst hx
      subst hrest
      exact (List.Perm.swap a (y, ys) zs).trans ((ih he).cons a)

theorem extractFirst_some_prop {p : String × String → Bool}
    {l rest : List (String × String)} {x : String × String}
    (h : extractFirst p l = some (x, rest)) : p x = true := by
  induction l generalizing x rest with
  | nil => simp [extractFirst] at h
  | cons a tl ih =>
    by_cases hp : p a
    · simp [extractFirst, hp] at h
      obtain ⟨h1, h2⟩ := h
      subst h1
      exact hp
    · simp [extractFirst, hp, Option.map_eq_some'] at h
      obtain ⟨y, ys, zs, he, hx, hrest⟩ := h
      subst hx
      exact ih he

theorem extractFirst_eq_none {p : String × String → Bool}
    {l : List (String × String)} (h : extractFirst p l = none) :
    ∀ x ∈ l, p x = false := by
  induction l with
  | nil => intro x hx; simp at hx
  | cons a tl ih =>
    by_cases hp : p a
    · simp [extractFirst, hp] at h
    · intro x hx
      rcases List.mem_cons.mp hx with hxa | hxtl
      · subst hxa; exact Bool.eq_false_iff.mpr hp
      · apply ih _ x hxtl
        simp [extractFirst, hp, Option.map_eq_none'] at h
        exact h

theorem pickStep_cases {used : List String} {last : Option String}
    {pool : List (String × String)}
    {r : (String × String) × List (String × String)}
    (h : pickStep used last pool = some r) :
    extractFirst (freshDiff used last) pool = some r ∨
      (extractFirst (freshDiff used last) pool = none ∧
        extractFirst (freshAny used) pool = some r) := by
  unfold pickStep at h
  cases he : extractFirst (freshDiff used last) pool with
  | some s => rw [he] at h; exact Or.inl h
  | none => rw [he] at h; exact Or.inr ⟨rfl, h⟩

theorem pickStep_perm {used : List String} {last : Option String}
    {pool rest : List (String × String)} {fv : String × String}
    (h : pickStep used last pool = some (fv, rest)) :
    List.Perm (fv :: rest) pool := by
  rcases pickStep_cases h with h1 | ⟨_, h2⟩
  · exact extractFirst_some_perm h1
  · exact extractFirst_some_perm h2

theorem pickStep_isSome {used : List String} {last : Option String}
    {pool : List (String × String)} (hne : pool ≠ [])
    (hun : ∀ x ∈ pool, used.contains x.2 = false) :
    ∃ fv rest, pickStep used last pool = some (fv, rest) := by
  unfold pickStep
  cases he : extractFirst (freshDiff used last) pool with
  | some r => exact ⟨r.1, r.2, rfl⟩
  | none =>
    cases hf : extractFirst (freshAny used) pool with
    | some r => exact ⟨r.1, r.2, rfl⟩
    | none =>
      exfalso
      cases pool with
      | nil => exact hne rfl
      | cons a tl =>
        have hall := extractFirst_eq_none hf a (List.mem_cons_self a tl)
        have hu := hun a (List.mem_cons_self a tl)
        simp [freshAny] at hall
        simp at hu
        exact hu hall

theorem pickStep_violation {used : List String} {last : Option String}
    {pool rest : List (String × String)} {fv : String × String}
    (h : pickStep used last pool = some (fv, rest)) (hviol : some fv.1 = last)
    (hun : ∀ x ∈ pool, used.contains x.2 = false) :
    ∀ x ∈ pool, x.1 = fv.1 := by
  rcases pickStep_cases h with h1 | ⟨h0, _⟩
  · have hprop := extractFirst_some_prop h1
    simp [freshDiff] at hprop
    exact absurd hviol hprop.2
  · intro x hx
    have hx0 := extractFirst_eq_none h0 x hx
    have hux := hun x hx
    have hux2 : x.2 ∉ used := by simpa using hux
    simp [freshDiff] at hx0
    have hlast := hx0 hux2
    rw [← hviol] at hlast
    exact Option.some.inj hlast

theorem pickLoop_mem {n : Nat} {used : List String} {last : Option String}
    {pool : List (String × String)} {x : String × String}
    (hx : x ∈ pickLoop n used last pool) : x ∈ pool := by
  induction n generalizing used last pool with
  | zero => simp [pickLoop] at hx
  | succ n ih =>
    rw [pickLoop] at hx
    revert hx
    cases hs : pickStep used last pool with
    | none => intro hx; exact ih hx
    | some r =>
      intro hx
      obtain ⟨fv, rest⟩ := r
      have hperm := pickStep_perm hs
      rcases List.mem_cons.mp hx with h1 | h2
      · subst h1; exact hperm.mem_iff.mp (List.mem_cons_self _ _)
      · exact hperm.mem_iff.mp (List.mem_cons_of_mem _ (ih h2))

theorem pickLoop_invariant (n : Nat) :
    ∀ (used : List String) (last : Option String)
      (pool : List (String × String)),
    (pool.map Prod.snd).Nodup →
    (∀ x ∈ pool, used.contains x.2 = false) →
    ((pickLoop n used last pool).map Prod.snd).Nodup ∧
      relaxedChain last (pickLoop n used last pool) ∧
      (n ≤ pool.length → (pickLoop n used last pool).length = n) := by
  induction n with
  | zero =>
    intro used last pool _ _
    exact ⟨by simp [pickLoop], trivial, fun _ => by simp [pickLoop]⟩
  | succ n ih =>
    intro used last pool hnd hun
    cases hpool : pool with
    | nil =>
      subst hpool
      have hs0 : pickStep used last [] = none := rfl
      rw [pickLoop, hs0]
      obtain ⟨h1, h2, _⟩ :=
        ih used last [] (by simp) (by intro x hx; simp at hx)
      exact ⟨h1, h2, fun hle => absurd hle (Nat.not_succ_le_zero n)⟩
    | cons a tl =>
      subst hpool
      obtain ⟨fv, rest, hs⟩ := pickStep_isSome (List.cons_ne_nil a tl) hun
      have hperm := pickStep_perm hs
      have hpermsnd :
          List.Perm (fv.2 :: rest.map Prod.snd) ((a :: tl).map Prod.snd) := by
        simpa using hperm.map Prod.snd
      have hndcons : (fv.2 :: rest.map Prod.snd).Nodup :=
        (hpermsnd.nodup_iff).mpr hnd
      have hfvnotin : fv.2 ∉ rest.map Prod.snd :=
        (List.nodup_cons.mp hndcons).1
      have hndrest : (rest.map Prod.snd).Nodup :=
        (List.nodup_cons.mp hndcons).2
      have hun2 : ∀ x ∈ rest, (fv.2 :: used).contains x.2 = false := by
        intro x hxr
        have hxp : x ∈ a :: tl :=
          hperm.mem_iff.mp (List.mem_cons_of_mem _ hxr)
        have h1 := hun x hxp
        have hxne : x.2 ≠ fv.2 := by
          intro hcontra
          exact hfvnotin (hcontra ▸ List.mem_map_of_mem Prod.snd hxr)
        simp [List.contains, List.elem_cons]
        constructor
        · exact fun hc => hxne (by simpa using hc)
        · simpa [List.contains] using h1
      obtain ⟨ih1, ih2, ih3⟩ := ih (fv.2 :: used) (some fv.1) rest hndrest hun2
      rw [pickLoop, hs]
      refine ⟨?_, ?_, ?_⟩
      · rw [List.map_cons, List.nodup_cons]
        refine ⟨?_, ih1⟩
        intro hmem
        obtain ⟨q, hq, hq2⟩ := List.mem_map.mp hmem
        have hqrest : q ∈ rest := pickLoop_mem hq
        exact hfvnotin (hq2 ▸ List.mem_map_of_mem Prod.snd hqrest)
      · refine ⟨?_, ih2⟩
        intro hviol q hq
        have hqpool : q ∈ a :: tl :=
          hperm.mem_iff.mp (List.mem_cons_of_mem _ (pickLoop_mem hq))
        exact pickStep_violation hs hviol hun q hqpool
      · intro hle
        have hlen : rest.length + 1 = (a :: tl).length := by
          simpa using hperm.length_eq
        rw [List.length_cons, ih3 (by omega)]

theorem pick_ok {ftv : List (String × List String)} {count : Nat}
    {shuffled : List (String × String)}
    (hcount : count ≤ (allVideosOf ftv).length) :
    pick_non_repeating_videos ftv count shuffled =
      Except.ok ((pickLoop count [] none shuffled).map Prod.snd) := by
  unfold pick_non_repeating_videos
  rw [if_neg (by omega)]

/-- C1: for every catalog (with globally distinct asset paths, the invariant
of catalogs built by `get_all_video_files`), every shuffle outcome, and every
count that does not exceed the total number of assets,
`pick_non_repeating_videos` returns a plan of length exactly `count` in which
no asset path appears twice. -/
theorem pick_plan_length_and_distinct (ftv : List (String × List String))
    (count : Nat) (shuffled : List (String × String))
    (hperm : List.Perm shuffled (allVideosOf ftv))
    (hnodup : (shuffled.map Prod.snd).Nodup)
    (hcount : count ≤ (allVideosOf ftv).length) :
    ∃ plan, pick_non_repeating_videos ftv count shuffled = Except.ok plan ∧
      plan.length = count ∧ plan.Nodup := by
  obtain ⟨h1, _, h3⟩ :=
    pickLoop_invariant count [] none shuffled hnodup (fun x _ => rfl)
  refine ⟨_, pick_ok hcount, ?_, h1⟩
  rw [List.length_map, h3 (by rw [hperm.length_eq]; exact hcount)]

/-- Witness for C1 at a concrete catalog, shuffle and count. -/
theorem pick_plan_length_and_distinct_witness :
    List.Perm [("A", "a"), ("B", "b")]
        (allVideosOf [("A", ["a"]), ("B", ["b"])]) ∧
      (([("A", "a"), ("B", "b")].map Prod.snd).Nodup) ∧
      2 ≤ (allVideosOf [("A", ["a"]), ("B", ["b"])]).length ∧
      ∃ plan,
        pick_non_repeating_videos [("A", ["a"]), ("B", ["b"])] 2
            [("A", "a"), ("B", "b")] = Except.ok plan ∧
          plan.length = 2 ∧ plan.Nodup :=
  ⟨by decide, by decide, by decide,
    pick_plan_length_and_distinct [("A", ["a"]), ("B", ["b"])] 2
      [("A", "a"), ("B", "b")] (by decide) (by decide) (by decide)⟩

/-- C3: for every catalog, shuffle outcome and count strictly greater than
the total number of assets, `pick_non_repeating_videos` fails with the
`ValueError` whose message names the requested count and the available
maximum, and returns no plan. -/
theorem pick_insufficient_assets (ftv : List (String × List String))
    (count : Nat) (shuffled : List (String × String))
    (hcount : count > (allVideosOf ftv).length) :
    pick_non_repeating_videos ftv count shuffled =
      Except.error ("Cannot select " ++ toString count ++
        " unique videos. Maximum is " ++
        toString (allVideosOf ftv).length ++ ".") := by
  unfold pick_non_repeating_videos
  rw [if_pos hcount]

/-- Witness for C3: requesting 3 videos from a 2-asset catalog fails with the
message naming 3 and 2. -/
theorem pick_insufficient_assets_witness :
    3 > (allVideosOf [("A", ["a"]), ("B", ["b"])]).length ∧
      pick_non_repeating_videos [("A", ["a"]), ("B", ["b"])] 3 [] =
        Except.error "Cannot select 3 unique videos. Maximum is 2." :=
  ⟨by decide,
    pick_insufficient_assets [("A", ["a"]), ("B", ["b"])] 3 [] (by decide)⟩

/-- C10: for every catalog (including the empty one) and every shuffle
outcome, requesting 0 videos returns the empty plan and raises no error. -/
theorem pick_zero_count (ftv : List (String × List String))
    (shuffled : List (String × String)) :
    pick_non_repeating_videos ftv 0 shuffled = Except.ok [] := by
  unfold pick_non_repeating_videos
  rw [if_neg (by omega)]
  rfl

/-- C2 (amended): the plan has exactly `count` entries and all-distinct
paths, and whenever two consecutive entries share a category, every later
entry also has that category — relaxation happens only when, at the point of
selection, every unused asset left in the pool is from the preceding
category, i.e. only in an unavoidable single-category tail.  (Global
minimality of the number of relaxed positions does NOT hold; see the
counterexample.) -/
theorem pick_adjacency_relaxed_only_when_forced
    (ftv : List (String × List String)) (count : Nat)
    (shuffled : List (String × String))
    (hperm : List.Perm shuffled (allVideosOf ftv))
    (hnodup : (shuffled.map Prod.snd).Nodup)
    (hcount : count ≤ (allVideosOf ftv).length) :
    pick_non_repeating_videos ftv count shuffled =
        Except.ok ((pickLoop count [] none shuffled).map Prod.snd) ∧
      relaxedChain none (pickLoop count [] none shuffled) ∧
      ((pickLoop count [] none shuffled).map Prod.snd).Nodup ∧
      (pickLoop count [] none shuffled).length = count := by
  obtain ⟨h1, h2, h3⟩ :=
    pickLoop_invariant count [] none shuffled hnodup (fun x _ => rfl)
  exact ⟨pick_ok hcount, h2, h1,
    h3 (by rw [hperm.length_eq]; exact hcount)⟩

/-- Witness for the amended C2 at a concrete catalog, shuffle and count. -/
theorem pick_adjacency_relaxed_only_when_forced_witness :
    List.Perm [("B", "b1"), ("A", "a1"), ("A", "a2"), ("A", "a3")]
        (allVideosOf [("A", ["a1", "a2", "a3"]), ("B", ["b1"])]) ∧
      (([("B", "b1"), ("A", "a1"), ("A", "a2"), ("A", "a3")].map
        Prod.snd).Nodup) ∧
      4 ≤ (allVideosOf [("A", ["a1", "a2", "a3"]), ("B", ["b1"])]).length ∧
      relaxedChain none
        (pickLoop 4 [] none
          [("B", "b1"), ("A", "a1"), ("A", "a2"), ("A", "a3")]) :=
  ⟨by decide, by decide, by decide,
    (pick_adjacency_relaxed_only_when_forced
      [("A", ["a1", "a2", "a3"]), ("B", ["b1"])] 4
      [("B", "b1"), ("A", "a1"), ("A", "a2"), ("A", "a3")]
      (by decide) (by decide) (by decide)).2.1⟩

/-- C2 counterexample: on the catalog with categories A = a1,a2,a3 and
B = b1 and count 4, the shuffle order b1,a1,a2,a3 makes the algorithm return
the plan b1,a1,a2,a3 with TWO same-category adjacencies, while the valid
plan a1,b1,a2,a3 (same assets, all distinct) has only ONE: the relaxation is
not confined to the minimum number of positions necessary for this catalog
and count. -/
theorem pick_adjacency_not_minimal_counterexample :
    List.Perm [("B", "b1"), ("A", "a1"), ("A", "a2"), ("A", "a3")]
        (allVideosOf [("A", ["a1", "a2", "a3"]), ("B", ["b1"])]) ∧
      (([("B", "b1"), ("A", "a1"), ("A", "a2"), ("A", "a3")].map
        Prod.snd).Nodup) ∧
      pick_non_repeating_videos [("A", ["a1", "a2", "a3"]), ("B", ["b1"])] 4
          [("B", "b1"), ("A", "a1"), ("A", "a2"), ("A", "a3")] =
        Except.ok ["b1", "a1", "a2", "a3"] ∧
      countAdjSame
          (pickLoop 4 [] none
            [("B", "b1"), ("A", "a1"), ("A", "a2"), ("A", "a3")]) = 2 ∧
      List.Perm [("A", "a1"), ("B", "b1"), ("A", "a2"), ("A", "a3")]
        (allVideosOf [("A", ["a1", "a2", "a3"]), ("B", ["b1"])]) ∧
      (([("A", "a1"), ("B", "b1"), ("A", "a2"), ("A", "a3")].map
        Prod.snd).Nodup) ∧
      countAdjSame [("A", "a1"), ("B", "b1"), ("A", "a2"), ("A", "a3")] = 1 :=
  ⟨by decide, by decide, by rfl, by decide, by decide, by decide, by decide⟩

/-! ## Duration Probe: `utils.get_audio_duration`

The function shells out to `ffprobe` and falls back to MoviePy.  The
environment describes the outcome of each external collaborator; the result
carries a trace of which probing strategies were invoked, so that "before any
subprocess is spawned" is expressible. -/

/-- What `result.stdout.strip()` holds after the `ffprobe` call: empty
(falsy), non-empty but not parsable by `float(...)`, or a parsed value. -/
inductive StdoutVal
  | empty
  | unparsable
  | val (q : ℚ)
deriving DecidableEq

/-- Outcome of the `subprocess.run(["ffprobe", ...])` call: the binary is
missing (`FileNotFoundError`), or the process ran with the given return code
and standard output. -/
inductive FfprobeOutcome
  | missing
  | ran (returncode : Int) (out : StdoutVal)
deriving DecidableEq

/-- Probing strategies, in invocation order. -/
inductive ProbeStep
  | ffprobeCall
  | moviepyOpen
deriving DecidableEq

/-- Errors raised by `get_audio_duration`. -/
inductive DurError
  | fileNotFound (msg : String)
  | runtimeError (msg : String)
deriving DecidableEq

/-- Outcomes of the external collaborators of `get_audio_duration`:
whether the path exists, what `ffprobe` does, and what
`AudioFileClip(...).duration` yields (`none` = MoviePy raises). -/
structure ProbeEnv where
  pathExists : Bool
  ffprobe : FfprobeOutcome
  moviepy : Option ℚ
deriving DecidableEq

/-- The value the primary strategy returns, when it returns one: `ffprobe`
ran, its stripped stdout is non-empty and parses as a float, and the return
code is 0 (`if duration_str and result.returncode == 0` followed by
returning the parsed float).  Every other primary outcome raises into the
`except` clause and triggers the fallback. -/
def ffprobeParsed : FfprobeOutcome → Option ℚ
  | FfprobeOutcome.ran rc (StdoutVal.val q) => if rc = 0 then some q else none
  | _ => none

/-- `utils.get_audio_duration`, with the invoked probing strategies traced.
The existence check precedes everything; the primary value is returned only
when its stdout is non-empty, parses, and the return code is 0; every other
primary outcome falls back to MoviePy. -/
def get_audio_duration (audioPath : String) (env : ProbeEnv) :
    Except DurError ℚ × List ProbeStep :=
  if env.pathExists = false then
    (Except.error (DurError.fileNotFound
      ("Audio file not found: " ++ audioPath)), [])
  else
    match ffprobeParsed env.ffprobe with
    | some q => (Except.ok q, [ProbeStep.ffprobeCall])
    | none =>
      match env.moviepy with
      | some q => (Except.ok q, [ProbeStep.ffprobeCall, ProbeStep.moviepyOpen])
      | none =>
          (Except.error (DurError.runtimeError
            ("Could not determine duration for " ++ audioPath)),
           [ProbeStep.ffprobeCall, ProbeStep.moviepyOpen])

/-- The primary (ffprobe) strategy failed in one of the ways that triggers
the MoviePy fallback: the binary is missing, the output is empty or
unparsable, or the return code is non-zero. -/
def primaryFailed : FfprobeOutcome → Prop
  | FfprobeOutcome.missing => True
  | FfprobeOutcome.ran rc out =>
      out = StdoutVal.empty ∨ out = StdoutVal.unparsable ∨ rc ≠ 0

theorem ffprobeParsed_eq_none {o : FfprobeOutcome} (h : primaryFailed o) :
    ffprobeParsed o = none := by
  cases o with
  | missing => rfl
  | ran rc out =>
    cases out with
    | empty => rfl
    | unparsable => rfl
    | val q =>
      rcases h with h | h | h
      · cases h
      · cases h
      · exact if_neg h

theorem get_audio_duration_fallback {audioPath : String} {env : ProbeEnv}
    (hex : env.pathExists = true) (hp : ffprobeParsed env.ffprobe = none) :
    get_audio_duration audioPath env =
      match env.moviepy with
      | some q => (Except.ok q, [ProbeStep.ffprobeCall, ProbeStep.moviepyOpen])
      | none =>
          (Except.error (DurError.runtimeError
            ("Could not determine duration for " ++ audioPath)),
           [ProbeStep.ffprobeCall, ProbeStep.moviepyOpen]) := by
  unfold get_audio_duration
  rw [hex, hp]
  simp

/-- C7: for every audio path that does not exist, `get_audio_duration` fails
with the file-not-found error naming the path, and its strategy trace is
empty: neither the `ffprobe` subprocess nor the MoviePy fallback is
invoked. -/
theorem duration_missing_file_no_subprocess (audioPath : String)
    (env : ProbeEnv) (habs : env.pathExists = false) :
    get_audio_duration audioPath env =
      (Except.error (DurError.fileNotFound
        ("Audio file not found: " ++ audioPath)), []) := by
  unfold get_audio_duration
  rw [if_pos habs]

/-- Witness for C7 at a concrete environment. -/
theorem duration_missing_file_no_subprocess_witness :
    (ProbeEnv.mk false (FfprobeOutcome.ran 0 (StdoutVal.val 3))
        (some 5)).pathExists = false ∧
      get_audio_duration "a.wav"
          (ProbeEnv.mk false (FfprobeOutcome.ran 0 (StdoutVal.val 3))
            (some 5)) =
        (Except.error (DurError.fileNotFound "Audio file not found: a.wav"),
          []) :=
  ⟨rfl,
    duration_missing_file_no_subprocess "a.wav"
      (ProbeEnv.mk false (FfprobeOutcome.ran 0 (StdoutVal.val 3)) (some 5))
      rfl⟩

/-- C8 counterexample: when `ffprobe` exits 0 and prints a string parsing to
the non-positive value 0, `get_audio_duration` returns 0 directly — the
MoviePy fallback (which here would yield 5) is not invoked, and the returned
duration is not positive.  The code checks parseability, not positivity. -/
theorem duration_nonpositive_no_fallback_counterexample :
    get_audio_duration "a.wav"
        (ProbeEnv.mk true (FfprobeOutcome.ran 0 (StdoutVal.val 0)) (some 5)) =
      (Except.ok 0, [ProbeStep.ffprobeCall]) ∧ ¬ (0 : ℚ) > 0 :=
  ⟨rfl, by norm_num⟩

/-- C8 (amended): if the primary tool is unavailable, exits non-zero, or
produces empty or unparsable output, the MoviePy fallback is invoked and its
result is returned; a parsable value is returned as-is even when it is not
positive, so positivity of the result is not guaranteed. -/
theorem duration_fallback_on_primary_failure (audioPath : String)
    (env : ProbeEnv) (hex : env.pathExists = true)
    (hfail : primaryFailed env.ffprobe) :
    (get_audio_duration audioPath env).2 =
        [ProbeStep.ffprobeCall, ProbeStep.moviepyOpen] ∧
      (∀ q, env.moviepy = some q →
        (get_audio_duration audioPath env).1 = Except.ok q) ∧
      (env.moviepy = none →
        (get_audio_duration audioPath env).1 = Except.error
          (DurError.runtimeError
            ("Could not determine duration for " ++ audioPath))) := by
  have hp := ffprobeParsed_eq_none hfail
  rw [get_audio_duration_fallback hex hp]
  cases hmv : env.moviepy with
  | some q =>
    refine ⟨rfl, ?_, ?_⟩
    · intro r hr
      cases hr
      rfl
    · intro hn
      cases hn
  | none =>
    refine ⟨rfl, ?_, fun _ => rfl⟩
    intro r hr
    cases hr

/-- Witness for the amended C8: `ffprobe` exits 1, MoviePy yields 2. -/
theorem duration_fallback_on_primary_failure_witness :
    (ProbeEnv.mk true (FfprobeOutcome.ran 1 (StdoutVal.val 3))
        (some 2)).pathExists = true ∧
      primaryFailed
        (ProbeEnv.mk true (FfprobeOutcome.ran 1 (StdoutVal.val 3))
          (some 2)).ffprobe ∧
      (get_audio_duration "a.wav"
          (ProbeEnv.mk true (FfprobeOutcome.ran 1 (StdoutVal.val 3))
            (some 2))).2 =
        [ProbeStep.ffprobeCall, ProbeStep.moviepyOpen] :=
  ⟨rfl, Or.inr (Or.inr (by decide)),
    (duration_fallback_on_primary_failure "a.wav"
      (ProbeEnv.mk true (FfprobeOutcome.ran 1 (StdoutVal.val 3)) (some 2)) rfl
      (Or.inr (Or.inr (by decide)))).1⟩

/-! ## Speed Transform: `video_creator._apply_random_speed`

The tiers' external effects are described by an environment; the embedding
records every attempted transcoding tier together with the `setpts` and
`atempo` filter parameters passed to it, and the contents of the
`normal_speed.mp4` / `final_output.mp4` artifacts after the call. -/

/-- Python's `round(x)` (round half to even), on rationals. -/
def roundHalfEven (x : ℚ) : ℤ :=
  if x - Int.floor x < 1 / 2 then Int.floor x
  else if 1 / 2 < x - Int.floor x then Int.floor x + 1
  else if Int.floor x % 2 = 0 then Int.floor x else Int.floor x + 1

/-- `round(x, n)` to `n` decimal places. -/
def roundTo (n : Nat) (x : ℚ) : ℚ :=
  (roundHalfEven (x * 10 ^ n) : ℚ) / 10 ^ n

/-- Outcome of one `subprocess.run(ffmpeg_command, ...)` invocation. -/
inductive RunOutcome
  | success
  | failExit
  | timeout
  | binaryMissing
  | otherError
deriving DecidableEq

/-- Transcoding tiers of the Speed Transform. -/
inductive Tier
  | hardware
  | software
  | library
deriving DecidableEq

/-- One attempted tier with the filter parameters passed to it. -/
structure Attempt where
  tier : Tier
  setpts : ℚ
  atempo : ℚ
deriving DecidableEq

/-- Contents of a media artifact: the original normal-speed render, or the
output of one of the encoders applied to a source. -/
inductive Content
  | file (tag : String)
  | hwEncoded (setpts atempo : ℚ) (src : Content)
  | swEncoded (setpts atempo : ℚ) (src : Content)
  | libEncoded (factor : ℚ) (src : Content)
deriving DecidableEq

/-- The two artifact paths of the Speed Transform:
`normal_speed.mp4` and `final_output.mp4`. -/
structure SpeedFS where
  normal : Option Content
  final : Option Content
deriving DecidableEq

/-- Result of the Speed Transform: the attempted tiers in order, with their
parameters, and the final state of the artifacts. -/
structure SpeedResult where
  attempts : List Attempt
  fs : SpeedFS
deriving DecidableEq

/-- `video_creator._apply_random_speed_cpu_fallback`: recompute
`setpts_value = round(1.0 / speed_factor, 3)` and `atempo_value =
speed_factor` from the same factor, run the `libx264` command; on return
code 0 delete `normal_speed.mp4` and report success, on any failure or
exception report failure with no artifact change. -/
def cpuFallback (sw : RunOutcome) (factor : ℚ) (c : Content) :
    Bool × SpeedFS × Attempt :=
  let setpts := roundTo 3 (1 / factor)
  let atempo := factor
  match sw with
  | RunOutcome.success =>
      (true, ⟨none, some (Content.swEncoded setpts atempo c)⟩,
        ⟨Tier.software, setpts, atempo⟩)
  | _ => (false, ⟨some c, none⟩, ⟨Tier.software, setpts, atempo⟩)

/-- `video_creator._apply_random_speed`, for a given speed factor and
normal-speed artifact content `c`.  The environment `hw`/`sw` gives the
outcome of the hardware-tier and software-tier ffmpeg invocations.
Branches mirror the source: return code 0 removes the normal-speed file;
non-zero exit, timeout and unexpected errors try the CPU fallback and, if it
fails, rename the normal-speed file to `final_output.mp4`; a missing ffmpeg
binary (`FileNotFoundError`) renames immediately without trying the
fallback. -/
def applyRandomSpeed (hw sw : RunOutcome) (factor : ℚ) (c : Content) :
    SpeedResult :=
  let setpts := roundTo 3 (1 / factor)
  let atempo := factor
  let hwAtt : Attempt := ⟨Tier.hardware, setpts, atempo⟩
  match hw with
  | RunOutcome.success =>
      ⟨[hwAtt], ⟨none, some (Content.hwEncoded setpts atempo c)⟩⟩
  | RunOutcome.binaryMissing => ⟨[hwAtt], ⟨none, some c⟩⟩
  | _ =>
    match cpuFallback sw factor c with
    | (true, fs, att) => ⟨[hwAtt, att], fs⟩
    | (false, _, att) => ⟨[hwAtt, att], ⟨none, some c⟩⟩

/-- `video_creator._apply_random_speed_moviepy` exists in the source but has
no caller; it draws its own factor and, on failure, renames the normal-speed
file into place. -/
def applyRandomSpeedMoviepy (ok : Bool) (factor : ℚ) (c : Content) :
    SpeedFS :=
  if ok then ⟨none, some (Content.libEncoded factor c)⟩
  else ⟨none, some c⟩

theorem roundHalfEven_ge {a : ℤ} {x : ℚ} (h : (a : ℚ) ≤ x) :
    a ≤ roundHalfEven x := by
  unfold roundHalfEven
  have hf : a ≤ Int.floor x := Int.le_floor.mpr h
  split
  · exact hf
  · split
    · omega
    · split
      · exact hf
      · omega

theorem roundHalfEven_le {b : ℤ} {x : ℚ} (h : x ≤ (b : ℚ)) :
    roundHalfEven x ≤ b := by
  unfold roundHalfEven
  have hfb : Int.floor x ≤ b := by
    have := Int.floor_le_floor h
    simpa using this
  split
  · exact hfb
  · rename_i hr
    have hlt : (Int.floor x : ℚ) < x := by
      have h0 : (0 : ℚ) < x - Int.floor x := by
        by_contra hc
        push_neg at hc
        have : x - (Int.floor x : ℚ) < 1 / 2 := by
          calc x - (Int.floor x : ℚ) ≤ 0 := hc
          _ < 1 / 2 := by norm_num
        exact hr this
      linarith
    have hx1 : Int.floor x < b := by
      rcases lt_or_eq_of_le hfb with hlt2 | heq
      · exact hlt2
      · exfalso
        rw [heq] at hlt
        exact absurd h (not_le.mpr hlt)
    split
    · omega
    · split
      · omega
      · omega

theorem roundTo_mem_Icc {a b : ℤ} {n : Nat} {x : ℚ}
    (hax : (a : ℚ) ≤ x * 10 ^ n) (hxb : x * 10 ^ n ≤ (b : ℚ)) :
    (a : ℚ) / 10 ^ n ≤ roundTo n x ∧ roundTo n x ≤ (b : ℚ) / 10 ^ n := by
  have hge := roundHalfEven_ge hax
  have hle := roundHalfEven_le hxb
  have hp : (0 : ℚ) ≤ 10 ^ n := by positivity
  unfold roundTo
  constructor
  · exact div_le_div_of_nonneg_right (by exact_mod_cast hge) hp
  · exact div_le_div_of_nonneg_right (by exact_mod_cast hle) hp

theorem applyRandomSpeed_attempt_param {hw sw : RunOutcome} {factor : ℚ}
    {c : Content} {a : Attempt}
    (ha : a ∈ (applyRandomSpeed hw sw factor c).attempts) :
    a = ⟨Tier.hardware, roundTo 3 (1 / factor), factor⟩ ∨
      a = ⟨Tier.software, roundTo 3 (1 / factor), factor⟩ := by
  rw [one_div]
  cases hw <;> cases sw <;>
    simp [applyRandomSpeed, cpuFallback] at ha <;> tauto

/-- C4 counterexample: with the hardware tier exiting non-zero and the
software tier also failing, the attempted tiers are hardware then software
only — the in-process (MoviePy) library tier is NOT attempted; the code goes
straight to renaming the normal-speed artifact (which is why the final
artifact is nevertheless byte-identical to it). -/
theorem speed_library_tier_not_attempted_counterexample :
    ((applyRandomSpeed RunOutcome.failExit RunOutcome.failExit (8 / 5)
        (Content.file "normal")).attempts.map Attempt.tier) =
        [Tier.hardware, Tier.software] ∧
      Tier.library ∉
        ((applyRandomSpeed RunOutcome.failExit RunOutcome.failExit (8 / 5)
          (Content.file "normal")).attempts.map Attempt.tier) ∧
      (applyRandomSpeed RunOutcome.failExit RunOutcome.failExit (8 / 5)
        (Content.file "normal")).fs = ⟨none, some (Content.file "normal")⟩ :=
  ⟨rfl, by decide, rfl⟩

/-- C4 (amended): when the hardware tier exits non-zero, the software tier
is attempted with the identical `setpts`/`atempo` filter parameters; if the
software tier also fails, the library tier is NOT attempted — the
normal-speed artifact is immediately renamed to `final_output.mp4`, so the
final artifact is byte-identical to the normal-speed artifact after only two
tiers. -/
theorem speed_hw_fail_software_retry_same_params (sw : RunOutcome)
    (factor : ℚ) (c : Content) :
    (applyRandomSpeed RunOutcome.failExit sw factor c).attempts =
        [⟨Tier.hardware, roundTo 3 (1 / factor), factor⟩,
          ⟨Tier.software, roundTo 3 (1 / factor), factor⟩] ∧
      (sw ≠ RunOutcome.success →
        (applyRandomSpeed RunOutcome.failExit sw factor c).fs =
          ⟨none, some c⟩) ∧
      (sw = RunOutcome.success →
        (applyRandomSpeed RunOutcome.failExit sw factor c).fs =
          ⟨none, some (Content.swEncoded (roundTo 3 (1 / factor)) factor c)⟩) := by
  cases sw with
  | success => exact ⟨rfl, fun h => absurd rfl h, fun _ => rfl⟩
  | failExit => exact ⟨rfl, fun _ => rfl, fun h => by cases h⟩
  | timeout => exact ⟨rfl, fun _ => rfl, fun h => by cases h⟩
  | binaryMissing => exact ⟨rfl, fun _ => rfl, fun h => by cases h⟩
  | otherError => exact ⟨rfl, fun _ => rfl, fun h => by cases h⟩

/-- Witness for the amended C4: hardware exits non-zero, software times
out; both tiers were attempted with identical parameters and the final
artifact is the untouched normal-speed content. -/
theorem speed_hw_fail_software_retry_same_params_witness :
    (applyRandomSpeed RunOutcome.failExit RunOutcome.timeout (8 / 5)
        (Content.file "n")).attempts =
        [⟨Tier.hardware, roundTo 3 (1 / (8 / 5)), 8 / 5⟩,
          ⟨Tier.software, roundTo 3 (1 / (8 / 5)), 8 / 5⟩] ∧
      RunOutcome.timeout ≠ RunOutcome.success ∧
      (applyRandomSpeed RunOutcome.failExit RunOutcome.timeout (8 / 5)
        (Content.file "n")).fs = ⟨none, some (Content.file "n")⟩ :=
  ⟨(speed_hw_fail_software_retry_same_params RunOutcome.timeout (8 / 5)
      (Content.file "n")).1,
    by decide,
    (speed_hw_fail_software_retry_same_params RunOutcome.timeout (8 / 5)
      (Content.file "n")).2.1 (by decide)⟩

/-- C5 counterexample: when the ffmpeg binary cannot be located during the
hardware tier (`FileNotFoundError`), the software tier is NOT attempted —
even though here the software encoder would have succeeded — and the
normal-speed artifact is renamed into place unchanged. -/
theorem speed_missing_binary_no_retry_counterexample :
    ((applyRandomSpeed RunOutcome.binaryMissing RunOutcome.success (8 / 5)
        (Content.file "normal")).attempts.map Attempt.tier) = [Tier.hardware] ∧
      Tier.software ∉
        ((applyRandomSpeed RunOutcome.binaryMissing RunOutcome.success (8 / 5)
          (Content.file "normal")).attempts.map Attempt.tier) ∧
      (applyRandomSpeed RunOutcome.binaryMissing RunOutcome.success (8 / 5)
        (Content.file "normal")).fs = ⟨none, some (Content.file "normal")⟩ :=
  ⟨by decide, by decide, by decide⟩

/-- C5 (amended): a missing transcoding binary during the hardware tier
skips the software retry entirely and renames the normal-speed artifact to
the final path; the software retry does occur on non-zero exit and on
timeout of the hardware tier. -/
theorem speed_missing_binary_renames (sw : RunOutcome) (factor : ℚ)
    (c : Content) :
    (applyRandomSpeed RunOutcome.binaryMissing sw factor c).attempts =
        [⟨Tier.hardware, roundTo 3 (1 / factor), factor⟩] ∧
      (applyRandomSpeed RunOutcome.binaryMissing sw factor c).fs =
        ⟨none, some c⟩ ∧
      ((applyRandomSpeed RunOutcome.failExit sw factor c).attempts.map
        Attempt.tier) = [Tier.hardware, Tier.software] ∧
      ((applyRandomSpeed RunOutcome.timeout sw factor c).attempts.map
        Attempt.tier) = [Tier.hardware, Tier.software] := by
  refine ⟨rfl, rfl, ?_, ?_⟩ <;> cases sw <;> rfl

/-- C6: for every draw `r` in the closed interval [1.50, 1.75], the speed
factor `round(r, 2)` stays in [1.50, 1.75], and every attempted encoding
tier (hardware and software alike) receives `setpts = round(1/f, 3)` and
`atempo = f` for that same factor `f`. -/
theorem speed_factor_and_filter_params (r : ℚ) (h1 : 3 / 2 ≤ r)
    (h2 : r ≤ 7 / 4) :
    3 / 2 ≤ roundTo 2 r ∧ roundTo 2 r ≤ 7 / 4 ∧
      ∀ (hw sw : RunOutcome) (c : Content) (a : Attempt),
        a ∈ (applyRandomSpeed hw sw (roundTo 2 r) c).attempts →
          a.setpts = roundTo 3 (1 / roundTo 2 r) ∧ a.atempo = roundTo 2 r := by
  have hb := roundTo_mem_Icc (a := 150) (b := 175) (n := 2) (x := r)
    (by push_cast; nlinarith) (by push_cast; nlinarith)
  refine ⟨?_, ?_, ?_⟩
  · have := hb.1
    norm_num at this
    exact this
  · have := hb.2
    norm_num at this
    exact this
  · intro hw sw c a ha
    rcases applyRandomSpeed_attempt_param ha with rfl | rfl
    · exact ⟨rfl, rfl⟩
    · exact ⟨rfl, rfl⟩

/-- Witness for C6 at the concrete draw r = 1.6. -/
theorem speed_factor_and_filter_params_witness :
    ((3 : ℚ) / 2 ≤ 8 / 5 ∧ (8 : ℚ) / 5 ≤ 7 / 4) ∧
      (3 / 2 ≤ roundTo 2 (8 / 5 : ℚ) ∧ roundTo 2 (8 / 5 : ℚ) ≤ 7 / 4 ∧
        ∀ (hw sw : RunOutcome) (c : Content) (a : Attempt),
          a ∈ (applyRandomSpeed hw sw (roundTo 2 (8 / 5 : ℚ)) c).attempts →
            a.setpts = roundTo 3 (1 / roundTo 2 (8 / 5 : ℚ)) ∧
              a.atempo = roundTo 2 (8 / 5 : ℚ)) :=
  ⟨⟨by norm_num, by norm_num⟩,
    speed_factor_and_filter_params (8 / 5) (by norm_num) (by norm_num)⟩

/-! ## Composition Engine: `video_creator.create_video_with_audio`

The engine opens MoviePy resources (one `VideoFileClip` per selected clip
that loads, the narration `AudioFileClip`, and the composed clip produced by
`set_audio`).  The embedding records, for each exit path, which resources
were opened and which were closed before the function returned. -/

/-- Media resources acquired by the Composition Engine. -/
inductive Res
  | clip (path : String)
  | audioClip
  | composedClip
deriving DecidableEq

/-- For each exit path: the resources opened and the resources closed before
the return. -/
structure CompTrace where
  opened : List Res
  closed : List Res
deriving DecidableEq

/-- Outcomes of the Composition Engine's collaborators: whether
`gene_audio.wav` exists, what `get_audio_duration` yields (`none` = raises),
the catalog from `get_all_video_files`, the shuffle outcome inside the
selector, each clip's duration on open (`none` = `VideoFileClip` raises),
whether `AudioFileClip` opens, and whether `write_videofile` succeeds. -/
structure CompEnv where
  audioFileExists : Bool
  probedDuration : Option ℚ
  catalog : List (String × List String)
  shuffled : List (String × String)
  clipDuration : String → Option ℚ
  audioOpenOk : Bool
  writeOk : Bool

/-- The clip-loading loop: open each selected clip in plan order (clips that
fail to open are skipped with a warning), accumulate durations, and stop
once the accumulated duration reaches the target. -/
def loadClips (cd : String → Option ℚ) (target : ℚ) :
    List String → ℚ → List String
  | [], _ => []
  | p :: rest, total =>
    match cd p with
    | none => loadClips cd target rest total
    | some d =>
      if target ≤ total + d then [p]
      else p :: loadClips cd target rest (total + d)

/-- `video_creator.create_video_with_audio`, as a resource trace.  Early
aborts (missing audio, probe failure, empty catalog, selector error, no
loadable clip) open nothing.  After clips are opened: a failing
`AudioFileClip` open raises into the `except` clause, which closes only the
video clips (nothing else was opened); a failing `write_videofile` raises
into the same clause, which closes only the video clips even though the
narration audio clip and the composed clip are open; on success everything
is closed. -/
def create_video_with_audio (env : CompEnv) : CompTrace :=
  if env.audioFileExists = false then ⟨[], []⟩
  else
    match env.probedDuration with
    | none => ⟨[], []⟩
    | some d =>
      if env.catalog = [] then ⟨[], []⟩
      else
        match pick_non_repeating_videos env.catalog
            ((Int.floor (d / 5) + 1).toNat) env.shuffled with
        | Except.error _ => ⟨[], []⟩
        | Except.ok selected =>
          let loaded := loadClips env.clipDuration d selected 0
          if loaded = [] then ⟨[], []⟩
          else
            let clipRes := loaded.map Res.clip
            if env.audioOpenOk = false then ⟨clipRes, clipRes⟩
            else
              if env.writeOk = false then
                ⟨clipRes ++ [Res.audioClip, Res.composedClip], clipRes⟩
              else
                ⟨clipRes ++ [Res.audioClip, Res.composedClip],
                  clipRes ++ [Res.audioClip, Res.composedClip]⟩

/-- A concrete run for C9: the narration exists and probes to 6 s, the
catalog has one asset per category A and B, the first clip loads with
duration 10 s (covering the target), the narration audio opens, and
`write_videofile` raises. -/
def leakEnv : CompEnv :=
  { audioFileExists := true
    probedDuration := some 6
    catalog := [("A", ["a1"]), ("B", ["b1"])]
    shuffled := [("A", "a1"), ("B", "b1")]
    clipDuration := fun _ => some 10
    audioOpenOk := true
    writeOk := false }

/-- C9 evaluated at the failing input: when `write_videofile` raises after
the narration audio was opened, the exception handler closes only the video
clips — the narration `AudioFileClip` and the composed clip are opened but
never closed, so not every opened resource is released on this exit path. -/
theorem composition_leaks_audio_on_write_failure :
    create_video_with_audio leakEnv =
      ⟨[Res.clip "a1", Res.audioClip, Res.composedClip], [Res.clip "a1"]⟩ ∧
      Res.audioClip ∈ (create_video_with_audio leakEnv).opened ∧
      Res.audioClip ∉ (create_video_with_audio leakEnv).closed ∧
      Res.composedClip ∈ (create_video_with_audio leakEnv).opened ∧
      Res.composedClip ∉ (create_video_with_audio leakEnv).closed := by
  have hc2 : (⌊(6 : ℚ) / 5⌋ + 1).toNat = 2 := by
    have hf : ⌊(6 : ℚ) / 5⌋ = 1 := by norm_num
    rw [hf]
    rfl
  have hsel : pick_non_repeating_videos [("A", ["a1"]), ("B", ["b1"])] 2
      [("A", "a1"), ("B", "b1")] = Except.ok ["a1", "b1"] := by rfl
  have hload : loadClips (fun _ => some 10) 6 ["a1", "b1"] 0 = ["a1"] := by
    simp only [loadClips]
    norm_num
  have hmain : create_video_with_audio leakEnv =
      ⟨[Res.clip "a1", Res.audioClip, Res.composedClip], [Res.clip "a1"]⟩ := by
    unfold create_video_with_audio leakEnv
    simp only [hc2, hsel, hload]
    norm_num
    decide
  refine ⟨hmain, ?_, ?_, ?_, ?_⟩ <;> rw [hmain] <;> decide

end Frbv
